import Mathlib

/-!
Snake simulation core of `src/game.js`.

A shallow embedding of the simulation part of `game.js`: the global `state`
object becomes the record `State`, every function that mutates it becomes a
function from states to states, and `Math.random` becomes an explicit stream of
samples that is threaded through the functions that draw from it.

Rendering, audio and DOM updates (`render`, `applyBackground`, `playPopEffect`,
the `textContent` writes) read the state but never write a field that the
simulation reads back, so they are left out. Coordinates and the score are
JavaScript numbers that only ever hold integers here and are modelled by `Int`;
time stamps are modelled by exact rationals.
-/

namespace SnakeGame

/-! ## Constants -/

/-- The constant `GRID_SIZE = 20`. -/
abbrev GRID_SIZE : Nat := 20

/-- The constant `TICK_MS = 115`. -/
abbrev TICK_MS : ℚ := 115

/-- The value of `BACKGROUND_IMAGES.length`: the array literal has five entries. -/
abbrev BACKGROUND_IMAGES_length : Int := 5

/-! ## Data model -/

/-- An object `{ x, y }`: a grid cell or a direction vector. -/
structure Pos where
  x : Int
  y : Int
  deriving DecidableEq, Repr

/-- The fields of the global `state` object that the simulation uses
(`audioCtx` belongs to the audio side effect and is left out). -/
structure State where
  snake : List Pos
  dir : Pos
  nextDir : Pos
  food : Pos
  score : Int
  running : Bool
  accumulator : ℚ
  lastFrameTime : ℚ
  backgroundIndex : Int
  deriving DecidableEq

/-- The source of randomness: sample `n` is the value of the `n`-th upcoming
evaluation of `Math.floor(Math.random() * GRID_SIZE)`, an integer of
`[0, GRID_SIZE)` because `Math.random()` lies in `[0, 1)`. -/
abbrev Rng : Type := Nat → Fin GRID_SIZE

/-- The stream that remains after `k` samples have been consumed. -/
def Rng.drop (rng : Rng) (k : Nat) : Rng := fun n => rng (n + k)

/-! ## Operations -/

/-- Function `endGame()`: only `state.running = false` touches the state. -/
def endGame (s : State) : State :=
  { s with running := false }

/-- The constant `maxAttempts = GRID_SIZE * GRID_SIZE` of `spawnFood()`. -/
abbrev maxAttempts : Nat := GRID_SIZE * GRID_SIZE

/-- The `do { ... } while (...)` loop of `spawnFood()`, entered with the current
value of `attempts`. It returns the accepted candidate, or `none` when the
attempt bound was exceeded (the `endGame(); return;` exit), together with the
samples that are left. -/
def spawnFoodLoop (snake : List Pos) (attempts : Nat) (rng : Rng) : Option Pos × Rng :=
  let candidate : Pos := ⟨((rng 0).val : Int), ((rng 1).val : Int)⟩
  if attempts + 1 > maxAttempts then
    (none, rng.drop 2)
  else if snake.any (fun part => part.x == candidate.x && part.y == candidate.y) then
    spawnFoodLoop snake (attempts + 1) (rng.drop 2)
  else
    (some candidate, rng.drop 2)
termination_by maxAttempts + 1 - attempts
decreasing_by omega

/-- Function `spawnFood()`: the sampling loop, then the assignment of the food. -/
def spawnFood (s : State) (rng : Rng) : State × Rng :=
  match spawnFoodLoop s.snake 0 rng with
  | (none, rng') => (endGame s, rng')
  | (some candidate, rng') => ({ s with food := candidate }, rng')

/-- Function `setDirection(x, y)`. -/
def setDirection (s : State) (x y : Int) : State :=
  if !s.running then s
  else if (x == -s.dir.x && y == -s.dir.y) || (x == -s.nextDir.x && y == -s.nextDir.y) then s
  else { s with nextDir := ⟨x, y⟩ }

/-- Function `hitWall(pos)`. -/
def hitWall (pos : Pos) : Bool :=
  decide (pos.x < 0) || decide (pos.x ≥ (GRID_SIZE : Int)) ||
    decide (pos.y < 0) || decide (pos.y ≥ (GRID_SIZE : Int))

/-- Function `hitSelf(pos, isEating)`, with the `state.snake` it reads as an argument;
`slice(0, -1)` drops the last element. -/
def hitSelf (snake : List Pos) (pos : Pos) (isEating : Bool) : Bool :=
  let bodyToCheck := if isEating then snake else snake.dropLast
  bodyToCheck.any (fun segment => segment.x == pos.x && segment.y == pos.y)

/-- Function `update()`. Reading `head.x` of an empty snake throws a `TypeError`; that
is the result `none`. JavaScript `%` is the truncating remainder `Int.tmod`. -/
def update (s : State) (rng : Rng) : Option (State × Rng) :=
  let s : State := { s with dir := s.nextDir }
  match s.snake with
  | [] => none
  | head :: _ =>
    let newHead : Pos := ⟨head.x + s.dir.x, head.y + s.dir.y⟩
    let isEating : Bool := newHead.x == s.food.x && newHead.y == s.food.y
    if hitWall newHead || hitSelf s.snake newHead isEating then
      some (endGame s, rng)
    else
      let s : State := { s with snake := newHead :: s.snake }
      if isEating then
        let s : State := { s with score := s.score + 1 }
        let s : State :=
          if Int.tmod s.score 10 == 0 then
            { s with backgroundIndex := Int.tmod (s.backgroundIndex + 1) BACKGROUND_IMAGES_length }
          else s
        some (spawnFood s rng)
      else
        some ({ s with snake := s.snake.dropLast }, rng)

/-- What one call of `gameLoop` leaves behind: the state, the remaining samples
and, as a ghost counter, the number of `update()` calls the frame made. -/
structure Frame where
  state : State
  rng : Rng
  ticks : Nat

/-- The loop `while (state.accumulator >= TICK_MS && state.running)` of
`gameLoop`; `ticks` counts the calls of `update()` made so far. -/
def drain (s : State) (rng : Rng) (ticks : Nat) : Option Frame :=
  if decide (s.accumulator ≥ TICK_MS) && s.running then
    match h : update s rng with
    | none => none
    | some (s', rng') =>
      drain { s' with accumulator := s'.accumulator - TICK_MS } rng' (ticks + 1)
  else
    some ⟨s, rng, ticks⟩
termination_by ⌊s.accumulator / TICK_MS⌋.toNat
decreasing_by
  rename_i hcond
  have hge : (115 : ℚ) ≤ s.accumulator := by
    simp only [Bool.and_eq_true, decide_eq_true_eq] at hcond
    exact hcond.1
  have hacc : s'.accumulator = s.accumulator := by
    unfold update at h
    simp only at h
    split at h
    · exact absurd h (by simp)
    · split at h
      · simp only [Option.some.injEq, Prod.mk.injEq] at h
        rw [← h.1]; rfl
      · split at h
        · simp only [Option.some.injEq] at h
          unfold spawnFood at h
          split at h <;>
            (simp only [Prod.mk.injEq] at h; rw [← h.1]; (try unfold endGame); dsimp only;
             split <;> rfl)
        · simp only [Option.some.injEq, Prod.mk.injEq] at h
          rw [← h.1]
  show ⌊(s'.accumulator - TICK_MS) / TICK_MS⌋.toNat < ⌊s.accumulator / TICK_MS⌋.toNat
  rw [hacc]
  have h1 : (s.accumulator - TICK_MS) / TICK_MS = s.accumulator / TICK_MS - 1 := by
    show (s.accumulator - 115) / 115 = s.accumulator / 115 - 1
    ring
  rw [h1, Int.floor_sub_one]
  have h2 : (1 : Int) ≤ ⌊s.accumulator / TICK_MS⌋ := by
    rw [Int.le_floor]
    show ((1 : Int) : ℚ) ≤ s.accumulator / 115
    rw [le_div_iff₀ (by norm_num)]
    push_cast
    linarith
  omega

/-- Function `gameLoop(timestamp)` up to, and without, the rendering and the
`requestAnimationFrame` re-registration. `!state.lastFrameTime` holds when the
field is `0`. -/
def gameLoop (s : State) (timestamp : ℚ) (rng : Rng) : Option Frame :=
  let s : State := if s.lastFrameTime = 0 then { s with lastFrameTime := timestamp } else s
  let frameDelta : ℚ := timestamp - s.lastFrameTime
  let s : State := { s with lastFrameTime := timestamp }
  let frameDelta : ℚ := min frameDelta 250
  if s.running then
    drain { s with accumulator := s.accumulator + frameDelta } rng 0
  else
    some ⟨s, rng, 0⟩

/-- Function `resetGame()`: the assignments, then `spawnFood()`. The food field is not
assigned before the spawn. -/
def resetGame (s : State) (rng : Rng) : State × Rng :=
  spawnFood
    { s with
      snake := [⟨8, 10⟩, ⟨7, 10⟩, ⟨6, 10⟩]
      dir := ⟨1, 0⟩
      nextDir := ⟨1, 0⟩
      score := 0
      running := true
      accumulator := 0
      lastFrameTime := 0
      backgroundIndex := 0 }
    rng

/-! ## The quantities a tick computes

Names for the local constants of `update()`, as functions of the state at the
start of the tick and of the head `state.snake[0]`. `update_cons` below shows
that `update` is built from exactly these. -/

/-- The constant `newHead` of `update()`: the head plus the direction committed
at the start of the tick, which is the pending direction `nextDir`. -/
def newHead (s : State) (head : Pos) : Pos :=
  ⟨head.x + s.nextDir.x, head.y + s.nextDir.y⟩

/-- The constant `isEating` of `update()`. -/
def isEating (s : State) (head : Pos) : Bool :=
  (newHead s head).x == s.food.x && (newHead s head).y == s.food.y

/-- The test `hitWall(newHead) || hitSelf(newHead, isEating)` of `update()`. -/
def collision (s : State) (head : Pos) : Bool :=
  hitWall (newHead s head) || hitSelf s.snake (newHead s head) (isEating s head)

/-- The state of an eating tick right before its call of `spawnFood()`. -/
def eaten (s : State) (head : Pos) : State :=
  { s with
    dir := s.nextDir
    snake := newHead s head :: s.snake
    score := s.score + 1
    backgroundIndex :=
      if Int.tmod (s.score + 1) 10 == 0 then
        Int.tmod (s.backgroundIndex + 1) BACKGROUND_IMAGES_length
      else s.backgroundIndex }

/-- A cell lies on the board. -/
def inGrid (p : Pos) : Prop :=
  0 ≤ p.x ∧ p.x < (GRID_SIZE : Int) ∧ 0 ≤ p.y ∧ p.y < (GRID_SIZE : Int)

instance (p : Pos) : Decidable (inGrid p) := by
  unfold inGrid; infer_instance

/-- The constant stream: every sample is `0`. -/
def rngZero : Rng := fun _ => 0

/-- The raw `frameDelta` of `gameLoop`, before the clamp: `timestamp` minus the
last frame time, the latter being `timestamp` itself on the first frame. -/
def frameDelta (s : State) (timestamp : ℚ) : ℚ :=
  timestamp - (if s.lastFrameTime = 0 then timestamp else s.lastFrameTime)

/-- The accumulator of a frame on a running state right before its drain loop:
the old accumulator plus the clamped frame delta. -/
def frameBudget (s : State) (timestamp : ℚ) : ℚ :=
  s.accumulator + min (frameDelta s timestamp) 250

/-- The state of a frame on a running game right before its drain loop. -/
def framed (s : State) (timestamp : ℚ) : State :=
  { s with lastFrameTime := timestamp, accumulator := frameBudget s timestamp }

/-- Successive frames: `gameLoop` re-registers itself with
`requestAnimationFrame`, so it runs once for each time stamp in turn. The
result is `none` when a frame throws. -/
def runFrames (s : State) (rng : Rng) : List ℚ → Option (State × Rng)
  | [] => some (s, rng)
  | timestamp :: rest =>
    match gameLoop s timestamp rng with
    | none => none
    | some f => runFrames f.state f.rng rest

/-! ## Concrete states -/

/-- A running state with the given snake, pending direction and food; the
current direction equals the pending one, the counters are zero and
`lastFrameTime` is `1`, so that a frame measures a real delta. -/
def mkState (snake : List Pos) (d food : Pos) : State :=
  { snake := snake, dir := d, nextDir := d, food := food, score := 0, running := true,
    accumulator := 0, lastFrameTime := 1, backgroundIndex := 0 }

/-- The start position moving right, food far away at (3, 3). -/
def sStart : State := mkState [⟨8, 10⟩, ⟨7, 10⟩, ⟨6, 10⟩] ⟨1, 0⟩ ⟨3, 3⟩

/-- The start position moving right with the food right in front of the head. -/
def sEat : State := mkState [⟨8, 10⟩, ⟨7, 10⟩, ⟨6, 10⟩] ⟨1, 0⟩ ⟨9, 10⟩

/-- A snake at the left wall moving left. -/
def sWall : State := mkState [⟨0, 10⟩, ⟨1, 10⟩, ⟨2, 10⟩] ⟨-1, 0⟩ ⟨10, 10⟩

/-- A snake of four segments curled in a 2 x 2 square: the head at (5, 5) moves
right into (6, 5), the cell its tail holds. -/
def sLoop : State := mkState [⟨5, 5⟩, ⟨5, 6⟩, ⟨6, 6⟩, ⟨6, 5⟩] ⟨1, 0⟩ ⟨3, 3⟩

/-- The start position with the game over. -/
def sStopped : State := { sStart with running := false }

/-- The start position with 90 ms of unconsumed time. -/
def sResidue : State := { sStart with accumulator := 90 }

/-- Every cell of the board, column by column. -/
def fullBoard : List Pos :=
  (List.range GRID_SIZE).flatMap fun (x : Nat) =>
    (List.range GRID_SIZE).map fun (y : Nat) => (⟨(x : Int), (y : Int)⟩ : Pos)

/-- A state whose snake covers the whole board. -/
def sFull : State := mkState fullBoard ⟨1, 0⟩ ⟨10, 10⟩

/-- A snake of two segments moving right, with a reversal queued: the pending
direction is the opposite of the current one. -/
def sShort : State :=
  { mkState [⟨5, 5⟩, ⟨4, 5⟩] ⟨1, 0⟩ ⟨3, 3⟩ with nextDir := ⟨-1, 0⟩ }

/-- The start position with a reversal queued. -/
def sReverse : State := { sStart with nextDir := ⟨-1, 0⟩ }

/-- The sample stream 8, 10, 8, 10, ...: every candidate drawn from it is the
cell (8, 10), the head of the start snake. -/
def rngHit : Rng := fun n => if n % 2 = 0 then 8 else 10

/-- The `k`-th candidate (counted from 0) that the sampling loop of
`spawnFood()` draws from a sample stream: `x` from sample `2 * k`, `y` from
sample `2 * k + 1`. -/
def candidateAt (rng : Rng) (k : Nat) : Pos :=
  ⟨((rng (2 * k)).val : Int), ((rng (2 * k + 1)).val : Int)⟩

/-! ## Reachable states -/

/-- One of the four unit directions, the only arguments the key map of the
`keydown` listener passes to `setDirection`. -/
def isUnitDir (x y : Int) : Prop :=
  (x = 1 ∧ y = 0) ∨ (x = -1 ∧ y = 0) ∨ (x = 0 ∧ y = 1) ∨ (x = 0 ∧ y = -1)

/-- The states the program can be in: the result of `resetGame()` (whatever the
state before and the samples), and from there any interleaving of `update()`
calls that return and of `setDirection(x, y)` calls with arguments allowed by
`ok`. Every `update()` may draw from any sample stream, which covers the one
stream the program threads through. -/
inductive ReachableBy (ok : Int → Int → Prop) : State → Prop
  | reset (s0 : State) (rng : Rng) : ReachableBy ok (resetGame s0 rng).1
  | tick (s s' : State) (rng rng' : Rng) :
      ReachableBy ok s → update s rng = some (s', rng') → ReachableBy ok s'
  | turn (s : State) (x y : Int) :
      ReachableBy ok s → ok x y → ReachableBy ok (setDirection s x y)

/-! ## Basic facts -/

theorem any_cell_iff (l : List Pos) (p : Pos) :
    l.any (fun q => q.x == p.x && q.y == p.y) = true ↔ p ∈ l := by
  induction l with
  | nil => simp
  | cons a l ih =>
    rw [List.any_cons, Bool.or_eq_true, ih, List.mem_cons]
    constructor
    · rintro (h | h)
      · left
        simp only [Bool.and_eq_true, beq_iff_eq] at h
        cases a; cases p; simp_all
      · exact Or.inr h
    · rintro (h | h)
      · left; subst h; simp
      · exact Or.inr h

theorem isEating_iff (s : State) (head : Pos) :
    isEating s head = true ↔ newHead s head = s.food := by
  unfold isEating
  simp only [Bool.and_eq_true, beq_iff_eq]
  constructor
  · intro h
    cases hn : newHead s head; cases hf : s.food
    simp_all
  · intro h; rw [h]; exact ⟨rfl, rfl⟩

theorem hitWall_iff (p : Pos) : hitWall p = true ↔ ¬ inGrid p := by
  unfold hitWall inGrid
  simp only [Bool.or_eq_true, decide_eq_true_eq]
  omega

theorem update_cons (s : State) (rng : Rng) (head : Pos) (tail : List Pos)
    (hs : s.snake = head :: tail) :
    update s rng =
      if collision s head then some (endGame { s with dir := s.nextDir }, rng)
      else if isEating s head then some (spawnFood (eaten s head) rng)
      else some ({ s with dir := s.nextDir, snake := newHead s head :: s.snake.dropLast }, rng) := by
  unfold update
  simp only [hs]
  by_cases hc : collision s head = true
  · have hc2 := hc
    simp only [collision, newHead, isEating, hs] at hc2
    simp [hc, hc2]
  · have hc2 := hc
    simp only [collision, newHead, isEating, hs] at hc2
    simp only [hc, hc2, if_false, Bool.false_eq_true]
    by_cases he : isEating s head = true
    · have he2 := he
      simp only [isEating, newHead] at he2
      simp only [he, he2, if_true]
      congr 2
      unfold eaten newHead
      simp only [hs]
      split <;> rfl
    · have he2 := he
      simp only [isEating, newHead] at he2
      simp only [he, he2, if_false, Bool.false_eq_true]
      simp [newHead, List.dropLast]

/-! ## The food spawner -/

theorem drop_drop (rng : Rng) (a b : Nat) : (rng.drop a).drop b = rng.drop (a + b) := by
  funext n
  show rng (n + b + a) = rng (n + (a + b))
  congr 1; omega

theorem sample_inGrid (a b : Fin GRID_SIZE) : inGrid ⟨(a.val : Int), (b.val : Int)⟩ := by
  have ha := a.isLt
  have hb := b.isLt
  unfold inGrid
  simp only
  omega

/-- What the sampling loop returns: an accepted candidate lies on the board and
on no snake segment. -/
theorem spawnFoodLoop_some (snake : List Pos) (n attempts : Nat) (rng : Rng)
    (hn : maxAttempts + 1 - attempts = n) (c : Pos) (rng' : Rng)
    (h : spawnFoodLoop snake attempts rng = (some c, rng')) :
    inGrid c ∧ c ∉ snake := by
  induction n generalizing attempts rng with
  | zero =>
    rw [spawnFoodLoop] at h
    have : attempts + 1 > maxAttempts := by omega
    simp [this] at h
  | succ n ih =>
    rw [spawnFoodLoop] at h
    simp only at h
    split at h
    · simp at h
    · split at h
      · exact ih (attempts + 1) (rng.drop 2) (by omega) h
      · rename_i hfree
        simp only [Prod.mk.injEq, Option.some.injEq] at h
        rw [← h.1]
        exact ⟨sample_inGrid _ _, fun hmem => hfree ((any_cell_iff snake _).2 hmem)⟩

/-- On a board whose every cell is occupied the sampling loop rejects each
candidate until the attempt bound is exceeded; entered with `attempts` it
consumes the samples of `maxAttempts + 1 - attempts` candidates. -/
theorem spawnFoodLoop_full (snake : List Pos) (hfull : ∀ p, inGrid p → p ∈ snake)
    (n attempts : Nat) (rng : Rng) (hn : maxAttempts + 1 - attempts = n + 1) :
    spawnFoodLoop snake attempts rng = (none, rng.drop (2 * (n + 1))) := by
  induction n generalizing attempts rng with
  | zero =>
    rw [spawnFoodLoop]
    have : attempts + 1 > maxAttempts := by omega
    simp [this]
  | succ n ih =>
    rw [spawnFoodLoop]
    have h1 : ¬ attempts + 1 > maxAttempts := by omega
    have h2 : snake.any (fun part => part.x == ((rng 0).val : Int) && part.y == ((rng 1).val : Int))
        = true := by
      have := (any_cell_iff snake ⟨((rng 0).val : Int), ((rng 1).val : Int)⟩).2
        (hfull _ (sample_inGrid _ _))
      exact this
    simp only [h1, h2, if_true, if_false]
    rw [ih (attempts + 1) (rng.drop 2) (by omega), drop_drop]
    have : 2 + 2 * (n + 1) = 2 * (n + 1 + 1) := by omega
    rw [this]

/-- The two exits of `spawnFood()`. -/
theorem spawnFood_cases (s : State) (rng : Rng) :
    (∃ rng', spawnFood s rng = (endGame s, rng')) ∨
    (∃ c rng', spawnFood s rng = ({ s with food := c }, rng') ∧ inGrid c ∧ c ∉ s.snake) := by
  unfold spawnFood
  split
  · rename_i rng' h
    exact Or.inl ⟨rng', rfl⟩
  · rename_i c rng' h
    exact Or.inr ⟨c, rng', rfl, spawnFoodLoop_some s.snake _ 0 rng rfl c rng' h⟩

theorem spawnFood_frame (s : State) (rng : Rng) :
    (spawnFood s rng).1.snake = s.snake ∧ (spawnFood s rng).1.dir = s.dir ∧
    (spawnFood s rng).1.nextDir = s.nextDir ∧ (spawnFood s rng).1.score = s.score ∧
    (spawnFood s rng).1.accumulator = s.accumulator ∧
    (spawnFood s rng).1.lastFrameTime = s.lastFrameTime ∧
    (spawnFood s rng).1.backgroundIndex = s.backgroundIndex ∧
    ((spawnFood s rng).1.running = true → s.running = true) := by
  rcases spawnFood_cases s rng with ⟨rng', h⟩ | ⟨c, rng', h, -⟩ <;> rw [h] <;>
    simp [endGame]

/-! ## One tick -/

/-- C1. A tick that neither eats nor collides: `update()` returns (the snake
being non-empty), the snake becomes the new head followed by the old snake
without its last segment, so its length is unchanged, the committed direction
is the pending one, the new head is the old head plus that direction, and
score, food and running flag are as before. No sample is consumed. -/
theorem update_not_eating (s : State) (rng : Rng) (head : Pos) (tail : List Pos)
    (hs : s.snake = head :: tail)
    (hfood : newHead s head ≠ s.food)
    (hsafe : collision s head = false) :
    ∃ s', update s rng = some (s', rng) ∧
      s'.snake = newHead s head :: s.snake.dropLast ∧
      s'.snake.length = s.snake.length ∧
      s'.dir = s.nextDir ∧
      s'.snake.head? = some ⟨head.x + s'.dir.x, head.y + s'.dir.y⟩ ∧
      s'.score = s.score ∧ s'.food = s.food ∧ s'.running = s.running := by
  have he : isEating s head = false := by
    rw [← Bool.not_eq_true, isEating_iff]; exact hfood
  refine ⟨{ s with dir := s.nextDir, snake := newHead s head :: s.snake.dropLast }, ?_, rfl, ?_,
    rfl, rfl, rfl, rfl, rfl⟩
  · rw [update_cons s rng head tail hs, hsafe, he]; rfl
  · simp [hs]

/-- C1 at the start position with the food elsewhere: the snake
[(8,10),(7,10),(6,10)] moving right becomes [(9,10),(8,10),(7,10)]. -/
theorem update_not_eating_witness :
    ∃ s', update sStart rngZero = some (s', rngZero) ∧
      s'.snake = [⟨9, 10⟩, ⟨8, 10⟩, ⟨7, 10⟩] ∧ s'.score = 0 ∧ s'.food = ⟨3, 3⟩ ∧
      s'.running = true := by
  obtain ⟨s', h, hsn, -, -, -, hsc, hf, hr⟩ :=
    update_not_eating sStart rngZero ⟨8, 10⟩ [⟨7, 10⟩, ⟨6, 10⟩] rfl (by decide) (by decide)
  exact ⟨s', h, hsn, hsc, hf, hr⟩

/-- C2. A tick that eats and does not collide: `update()` returns, the snake is
the new head in front of the whole old snake (one segment longer, no tail
removed) and the score is one higher, whatever samples the food respawn
draws. -/
theorem update_eating (s : State) (rng : Rng) (head : Pos) (tail : List Pos)
    (hs : s.snake = head :: tail)
    (hfood : newHead s head = s.food)
    (hsafe : collision s head = false) :
    ∃ s' rng', update s rng = some (s', rng') ∧
      s'.snake = newHead s head :: s.snake ∧
      s'.snake.length = s.snake.length + 1 ∧
      s'.score = s.score + 1 := by
  have he : isEating s head = true := (isEating_iff s head).2 hfood
  have hfr := spawnFood_frame (eaten s head) rng
  refine ⟨(spawnFood (eaten s head) rng).1, (spawnFood (eaten s head) rng).2, ?_, ?_, ?_, ?_⟩
  · rw [update_cons s rng head tail hs, hsafe, he]; rfl
  · rw [hfr.1]; rfl
  · rw [hfr.1]; rfl
  · rw [hfr.2.2.2.1]; rfl

/-- C2 on the scenario of the specification: snake [(8,10),(7,10),(6,10)],
direction (1,0), food (9,10), score 0 give the snake
[(9,10),(8,10),(7,10),(6,10)] and score 1. -/
theorem update_eating_witness :
    ∃ s' rng', update sEat rngZero = some (s', rng') ∧
      s'.snake = [⟨9, 10⟩, ⟨8, 10⟩, ⟨7, 10⟩, ⟨6, 10⟩] ∧ s'.snake.length = 3 + 1 ∧
      s'.score = 1 :=
  update_eating sEat rngZero ⟨8, 10⟩ [⟨7, 10⟩, ⟨6, 10⟩] rfl (by decide) (by decide)

/-- C3. A tick whose new head is off the board (`hitWall`) or on the body
(`hitSelf`): `update()` returns with the running flag cleared and with snake,
food, score and background index as before; no head is prepended and no sample
is drawn, so no food respawn happens. -/
theorem update_collision (s : State) (rng : Rng) (head : Pos) (tail : List Pos)
    (hs : s.snake = head :: tail)
    (hhit : hitWall (newHead s head) = true ∨
      hitSelf s.snake (newHead s head) (isEating s head) = true) :
    ∃ s', update s rng = some (s', rng) ∧
      s'.running = false ∧ s'.snake = s.snake ∧ s'.food = s.food ∧ s'.score = s.score ∧
      s'.backgroundIndex = s.backgroundIndex := by
  have hc : collision s head = true := by
    unfold collision
    rw [Bool.or_eq_true]
    exact hhit
  refine ⟨endGame { s with dir := s.nextDir }, ?_, rfl, rfl, rfl, rfl, rfl⟩
  rw [update_cons s rng head tail hs, hc]; rfl

/-- C3 on the scenario of the specification: snake [(0,10),(1,10),(2,10)] with
direction (-1,0) has the new head (-1,10); the tick clears the running flag and
keeps the score and the snake. -/
theorem update_collision_witness :
    newHead sWall ⟨0, 10⟩ = ⟨-1, 10⟩ ∧
    ∃ s', update sWall rngZero = some (s', rngZero) ∧
      s'.running = false ∧ s'.snake = [⟨0, 10⟩, ⟨1, 10⟩, ⟨2, 10⟩] ∧ s'.food = ⟨10, 10⟩ ∧
      s'.score = 0 ∧ s'.backgroundIndex = 0 :=
  ⟨by decide,
    update_collision sWall rngZero ⟨0, 10⟩ [⟨1, 10⟩, ⟨2, 10⟩] rfl (Or.inl (by decide))⟩

/-- C4. The collision test of a tick on a non-empty snake is true exactly when
the new head has a coordinate outside `[0, GRID_SIZE)` or equals a snake
segment, the last segment being left out of the comparison on a tick that does
not eat and included on one that eats. A true test ends the game and keeps the
snake; a false one advances the snake to the new head. In particular, on a tick
that does not eat, a new head on the cell that only the tail holds does not hit
the body, and with that cell on the board the snake advances into it. -/
theorem collision_iff (s : State) (rng : Rng) (head : Pos) (tail : List Pos)
    (hs : s.snake = head :: tail) :
    (collision s head = true ↔
      (((newHead s head).x < 0 ∨ (newHead s head).x ≥ (GRID_SIZE : Int) ∨
          (newHead s head).y < 0 ∨ (newHead s head).y ≥ (GRID_SIZE : Int)) ∨
        newHead s head ∈ (if isEating s head then s.snake else s.snake.dropLast))) ∧
    (collision s head = true →
      update s rng = some (endGame { s with dir := s.nextDir }, rng)) ∧
    (collision s head = false →
      ∃ s' rng', update s rng = some (s', rng') ∧
        s'.snake = newHead s head ::
          (if isEating s head then s.snake else s.snake.dropLast)) ∧
    (isEating s head = false → s.snake.getLast? = some (newHead s head) →
      newHead s head ∉ s.snake.dropLast →
        hitSelf s.snake (newHead s head) (isEating s head) = false ∧
        (inGrid (newHead s head) →
          collision s head = false ∧
          update s rng = some
            ({ s with dir := s.nextDir, snake := newHead s head :: s.snake.dropLast }, rng))) := by
  have hself : ∀ b : Bool, hitSelf s.snake (newHead s head) b = true ↔
      newHead s head ∈ (if b then s.snake else s.snake.dropLast) := by
    intro b
    unfold hitSelf
    simp only
    rw [any_cell_iff]
  refine ⟨?_, ?_, ?_, ?_⟩
  · unfold collision
    rw [Bool.or_eq_true, hself]
    unfold hitWall
    simp only [Bool.or_eq_true, decide_eq_true_eq, or_assoc]
  · intro hc
    rw [update_cons s rng head tail hs, hc]; rfl
  · intro hc
    cases he : isEating s head
    · refine ⟨{ s with dir := s.nextDir, snake := newHead s head :: s.snake.dropLast }, rng,
        ?_, ?_⟩
      · rw [update_cons s rng head tail hs, hc, he]; rfl
      · simp
    · refine ⟨(spawnFood (eaten s head) rng).1, (spawnFood (eaten s head) rng).2, ?_, ?_⟩
      · rw [update_cons s rng head tail hs, hc, he]; rfl
      · rw [(spawnFood_frame (eaten s head) rng).1]; rfl
  · intro he _ hnot
    have hns : hitSelf s.snake (newHead s head) (isEating s head) = false := by
      rw [← Bool.not_eq_true, hself, he]
      simpa using hnot
    refine ⟨hns, fun hin => ?_⟩
    have hnw : hitWall (newHead s head) = false := by
      rw [← Bool.not_eq_true, hitWall_iff]; exact not_not.2 hin
    have hc : collision s head = false := by
      unfold collision; rw [hnw, hns]; rfl
    refine ⟨hc, ?_⟩
    rw [update_cons s rng head tail hs, hc, he]; rfl

/-- C4 on a snake curled in a 2 x 2 square whose head moves into the cell of
its tail: no collision, and the snake advances. -/
theorem collision_iff_witness :
    sLoop.snake.getLast? = some (newHead sLoop ⟨5, 5⟩) ∧
    collision sLoop ⟨5, 5⟩ = false ∧
    update sLoop rngZero = some
      ({ sLoop with snake := [⟨6, 5⟩, ⟨5, 5⟩, ⟨5, 6⟩, ⟨6, 6⟩] }, rngZero) :=
  ⟨by decide,
    ((collision_iff sLoop rngZero ⟨5, 5⟩ [⟨5, 6⟩, ⟨6, 6⟩, ⟨6, 5⟩] rfl).2.2.2
      (by decide) (by decide) (by decide)).2 (by decide)⟩

/-! ## Direction requests -/

/-- C5. On a running state a request equal to the negation of the current
direction or to the negation of the pending direction leaves the whole state
as it is; in particular the pending direction is not overwritten. -/
theorem setDirection_reversal (s : State) (x y : Int) (hrun : s.running = true)
    (hrev : (x = -s.dir.x ∧ y = -s.dir.y) ∨ (x = -s.nextDir.x ∧ y = -s.nextDir.y)) :
    setDirection s x y = s := by
  unfold setDirection
  rw [hrun]
  have : ((x == -s.dir.x && y == -s.dir.y) || (x == -s.nextDir.x && y == -s.nextDir.y)) = true := by
    simpa using hrev
  simp [this]

/-- C5 on a snake moving right with a turn upwards already queued: the
requests left (against the current direction) and down (against the queued
one) are both dropped. -/
theorem setDirection_reversal_witness :
    setDirection { sStart with nextDir := ⟨0, -1⟩ } (-1) 0 = { sStart with nextDir := ⟨0, -1⟩ } ∧
    setDirection { sStart with nextDir := ⟨0, -1⟩ } 0 1 = { sStart with nextDir := ⟨0, -1⟩ } :=
  ⟨setDirection_reversal _ (-1) 0 rfl (Or.inl ⟨rfl, rfl⟩),
    setDirection_reversal _ 0 1 rfl (Or.inr ⟨rfl, rfl⟩)⟩

/-! ## Facts about a tick that the frame loop needs -/

theorem update_some (s : State) (rng : Rng) (hne : s.snake ≠ []) :
    ∃ s' rng', update s rng = some (s', rng') := by
  obtain ⟨head, tail, hs⟩ := List.exists_cons_of_ne_nil hne
  rw [update_cons s rng head tail hs]
  split
  · exact ⟨_, _, rfl⟩
  · split
    · exact ⟨_, _, rfl⟩
    · exact ⟨_, _, rfl⟩

theorem update_frame (s s' : State) (rng rng' : Rng) (h : update s rng = some (s', rng')) :
    s'.accumulator = s.accumulator ∧ s'.lastFrameTime = s.lastFrameTime ∧ s'.snake ≠ [] ∧
      (s'.running = true → s.running = true) := by
  cases hs : s.snake with
  | nil =>
    unfold update at h
    simp [hs] at h
  | cons head tail =>
    rw [update_cons s rng head tail hs] at h
    split at h
    · simp only [Option.some.injEq, Prod.mk.injEq] at h
      rw [← h.1]
      simp [endGame, hs]
    · split at h
      · simp only [Option.some.injEq] at h
        have hfr := spawnFood_frame (eaten s head) rng
        rw [h] at hfr
        simp only at hfr
        refine ⟨hfr.2.2.2.2.1, hfr.2.2.2.2.2.1, ?_, hfr.2.2.2.2.2.2.2⟩
        rw [hfr.1]
        simp [eaten]
      · simp only [Option.some.injEq, Prod.mk.injEq] at h
        rw [← h.1]
        simp

theorem mem_fullBoard (p : Pos) (hp : inGrid p) : p ∈ fullBoard := by
  obtain ⟨hx0, hx1, hy0, hy1⟩ := hp
  have hx : p.x.toNat < 20 := by
    change p.x < 20 at hx1
    omega
  have hy : p.y.toNat < 20 := by
    change p.y < 20 at hy1
    omega
  unfold fullBoard
  rw [List.mem_flatMap]
  refine ⟨p.x.toNat, List.mem_range.2 hx, ?_⟩
  rw [List.mem_map]
  refine ⟨p.y.toNat, List.mem_range.2 hy, ?_⟩
  cases p with
  | mk x y =>
    simp only at hx0 hy0
    simp only [Pos.mk.injEq]
    exact ⟨Int.toNat_of_nonneg hx0, Int.toNat_of_nonneg hy0⟩

/-! ## Food spawning -/

/-- C7. Whatever the snake and the samples, `spawnFood()` returns and leaves
the snake alone, and afterwards either the game has been ended with the food
left as it was, or the food is a cell of the board that is on no snake
segment. -/
theorem spawnFood_post (s : State) (rng : Rng) :
    (spawnFood s rng).1.snake = s.snake ∧
    (((spawnFood s rng).1.running = false ∧ (spawnFood s rng).1.food = s.food) ∨
      (inGrid (spawnFood s rng).1.food ∧
        ∀ part ∈ (spawnFood s rng).1.snake, part ≠ (spawnFood s rng).1.food)) := by
  refine ⟨(spawnFood_frame s rng).1, ?_⟩
  rcases spawnFood_cases s rng with ⟨rng', h⟩ | ⟨c, rng', h, hin, hfree⟩
  · left
    rw [h]
    exact ⟨rfl, rfl⟩
  · right
    rw [h]
    refine ⟨hin, fun part hpart heq => hfree ?_⟩
    simp only at hpart heq
    rw [← heq]
    exact hpart

/-- C8. On a board whose every cell is held by the snake, `spawnFood()`
returns after drawing `GRID_SIZE * GRID_SIZE + 1` candidates of two samples
each (the first `GRID_SIZE * GRID_SIZE` are tested and rejected, the last one
exceeds the bound), with the running flag cleared and the food, like every
other field, not assigned. -/
theorem spawnFood_full_board (s : State) (rng : Rng)
    (hfull : ∀ p, inGrid p → p ∈ s.snake) :
    spawnFood s rng = (endGame s, rng.drop (2 * (GRID_SIZE * GRID_SIZE + 1))) ∧
    (spawnFood s rng).1.running = false ∧ (spawnFood s rng).1.food = s.food := by
  have h : spawnFood s rng = (endGame s, rng.drop (2 * (GRID_SIZE * GRID_SIZE + 1))) := by
    unfold spawnFood
    rw [spawnFoodLoop_full s.snake hfull (GRID_SIZE * GRID_SIZE) 0 rng rfl]
  rw [h]
  exact ⟨rfl, rfl, rfl⟩

/-- C8 on the snake that covers all 400 cells: 802 samples are consumed and
the game is over with the food still at (10, 10). -/
theorem spawnFood_full_board_witness :
    spawnFood sFull rngZero = (endGame sFull, rngZero.drop 802) ∧
    (spawnFood sFull rngZero).1.running = false ∧
    (spawnFood sFull rngZero).1.food = ⟨10, 10⟩ :=
  spawnFood_full_board sFull rngZero mem_fullBoard

/-! ## The frame loop -/

theorem drain_stop (s : State) (rng : Rng) (k : Nat)
    (h : ¬ (TICK_MS ≤ s.accumulator ∧ s.running = true)) :
    drain s rng k = some ⟨s, rng, k⟩ := by
  rw [drain]
  have hc : (decide (s.accumulator ≥ TICK_MS) && s.running) = false := by
    rw [← Bool.not_eq_true]
    simpa using h
  simp [hc]

theorem drain_step (s s' : State) (rng rng' : Rng) (k : Nat)
    (hacc : TICK_MS ≤ s.accumulator) (hrun : s.running = true)
    (hu : update s rng = some (s', rng')) :
    drain s rng k = drain { s' with accumulator := s'.accumulator - TICK_MS } rng' (k + 1) := by
  rw [drain]
  have hc : (decide (s.accumulator ≥ TICK_MS) && s.running) = true := by
    simp [hacc, hrun]
  simp only [hc, if_true]
  split
  · rename_i h; rw [hu] at h; simp at h
  · rename_i a b h
    rw [hu] at h
    simp only [Option.some.injEq, Prod.mk.injEq] at h
    rw [h.1, h.2]

theorem drain_throws (s : State) (rng : Rng) (k : Nat)
    (hacc : TICK_MS ≤ s.accumulator) (hrun : s.running = true)
    (hu : update s rng = none) :
    drain s rng k = none := by
  rw [drain]
  have hc : (decide (s.accumulator ≥ TICK_MS) && s.running) = true := by
    simp [hacc, hrun]
  simp only [hc, if_true]
  split
  · rfl
  · rename_i a b h; rw [hu] at h; simp at h

theorem floor_tick_zero (a : ℚ) (h : a < TICK_MS) : ⌊a / TICK_MS⌋.toNat = 0 := by
  have h' : a < 115 := h
  have h1 : ⌊a / TICK_MS⌋ < 1 := by
    rw [Int.floor_lt]
    show a / 115 < ((1 : Int) : ℚ)
    rw [div_lt_iff₀ (by norm_num)]
    push_cast
    linarith
  omega

theorem floor_tick_succ (a : ℚ) (h : TICK_MS ≤ a) :
    ⌊a / TICK_MS⌋.toNat = ⌊(a - TICK_MS) / TICK_MS⌋.toNat + 1 := by
  have h' : (115 : ℚ) ≤ a := h
  have h1 : (a - TICK_MS) / TICK_MS = a / TICK_MS - 1 := by
    show (a - 115) / 115 = a / 115 - 1
    ring
  have h2 : (1 : Int) ≤ ⌊a / TICK_MS⌋ := by
    rw [Int.le_floor]
    show ((1 : Int) : ℚ) ≤ a / 115
    rw [le_div_iff₀ (by norm_num)]
    push_cast
    linarith
  rw [h1, Int.floor_sub_one]
  omega

/-- The drain loop returns on every state with a non-empty snake. -/
theorem drain_total (n : Nat) : ∀ (s : State) (rng : Rng) (k : Nat),
    ⌊s.accumulator / TICK_MS⌋.toNat = n → s.snake ≠ [] →
    ∃ f, drain s rng k = some f := by
  induction n with
  | zero =>
    intro s rng k hn _
    by_cases hc : TICK_MS ≤ s.accumulator ∧ s.running = true
    · have := floor_tick_succ s.accumulator hc.1
      omega
    · exact ⟨_, drain_stop s rng k hc⟩
  | succ n ih =>
    intro s rng k hn hne
    by_cases hc : TICK_MS ≤ s.accumulator ∧ s.running = true
    · obtain ⟨s', rng', hu⟩ := update_some s rng hne
      have hfr := update_frame s s' rng rng' hu
      rw [drain_step s s' rng rng' k hc.1 hc.2 hu]
      apply ih
      · have := floor_tick_succ s.accumulator hc.1
        show ⌊(s'.accumulator - TICK_MS) / TICK_MS⌋.toNat = n
        rw [hfr.1]
        omega
      · exact hfr.2.2.1
    · exact ⟨_, drain_stop s rng k hc⟩

/-- What the drain loop leaves behind when it returns: it made `j` ticks, at
most one for each whole tick interval in the accumulator, and took `j` tick
intervals off the accumulator; when the game still runs afterwards, all whole
intervals were consumed and less than one interval is left. -/
theorem drain_spec (n : Nat) : ∀ (s : State) (rng : Rng) (k : Nat) (f : Frame),
    ⌊s.accumulator / TICK_MS⌋.toNat = n → drain s rng k = some f →
    ∃ j : Nat, j ≤ n ∧ f.ticks = k + j ∧
      f.state.accumulator = s.accumulator - TICK_MS * (j : ℚ) ∧
      (0 ≤ s.accumulator → 0 ≤ f.state.accumulator) ∧
      (f.state.running = true → j = n ∧ f.state.accumulator < TICK_MS) := by
  induction n with
  | zero =>
    intro s rng k f hn hf
    by_cases hc : TICK_MS ≤ s.accumulator ∧ s.running = true
    · have := floor_tick_succ s.accumulator hc.1
      omega
    · rw [drain_stop s rng k hc] at hf
      simp only [Option.some.injEq] at hf
      subst hf
      refine ⟨0, le_refl _, rfl, by simp, fun h => h, fun hr => ⟨rfl, ?_⟩⟩
      simp only at hr ⊢
      by_contra hlt
      exact hc ⟨not_lt.1 hlt, hr⟩
  | succ n ih =>
    intro s rng k f hn hf
    by_cases hc : TICK_MS ≤ s.accumulator ∧ s.running = true
    · have hfl := floor_tick_succ s.accumulator hc.1
      cases hu : update s rng with
      | none =>
        rw [drain_throws s rng k hc.1 hc.2 hu] at hf
        simp at hf
      | some r =>
        obtain ⟨s', rng'⟩ := r
        have hfr := update_frame s s' rng rng' hu
        rw [drain_step s s' rng rng' k hc.1 hc.2 hu] at hf
        have hn' : ⌊({ s' with accumulator := s'.accumulator - TICK_MS } : State).accumulator
            / TICK_MS⌋.toNat = n := by
          show ⌊(s'.accumulator - TICK_MS) / TICK_MS⌋.toNat = n
          rw [hfr.1]
          omega
        obtain ⟨j, hj, ht, ha, hnn, hr⟩ := ih _ rng' (k + 1) f hn' hf
        simp only at ha hnn
        rw [hfr.1] at ha hnn
        refine ⟨j + 1, by omega, by omega, ?_, ?_, ?_⟩
        · rw [ha]; push_cast; ring
        · intro _
          apply hnn
          have h115 : (115 : ℚ) ≤ s.accumulator := hc.1
          show 0 ≤ s.accumulator - 115
          linarith
        · intro hrun
          obtain ⟨h1, h2⟩ := hr hrun
          exact ⟨by omega, h2⟩
    · rw [drain_stop s rng k hc] at hf
      simp only [Option.some.injEq] at hf
      subst hf
      refine ⟨0, Nat.zero_le _, rfl, by simp, fun h => h, fun hr => ?_⟩
      simp only at hr
      have hlt : s.accumulator < TICK_MS := by
        by_contra hlt
        exact hc ⟨not_lt.1 hlt, hr⟩
      have := floor_tick_zero s.accumulator hlt
      omega

/-- C6, the claim as stated, fails: with the running flag cleared `update()`
still commits the direction and moves the snake, here from (8,10) to (9,10). -/
theorem update_terminated_counterexample :
    sStopped.running = false ∧
    update sStopped rngZero =
      some ({ sStopped with snake := [⟨9, 10⟩, ⟨8, 10⟩, ⟨7, 10⟩] }, rngZero) ∧
    update sStopped rngZero ≠ some (sStopped, rngZero) := by
  have h : update sStopped rngZero =
      some ({ sStopped with snake := [⟨9, 10⟩, ⟨8, 10⟩, ⟨7, 10⟩] }, rngZero) := by
    rw [update_cons sStopped rngZero ⟨8, 10⟩ [⟨7, 10⟩, ⟨6, 10⟩] rfl]
    rfl
  refine ⟨rfl, h, fun hne => ?_⟩
  rw [h] at hne
  have hsnake := congrArg (fun r => r.1.snake) (Option.some.inj hne)
  revert hsnake
  decide

/-- C6, amended. With the running flag cleared a frame of `gameLoop` makes no
call of `update()`, draws no sample and changes nothing but `lastFrameTime`; so
any number of successive frames leaves snake, both directions, food, score,
running flag, background index and accumulator as they were. -/
theorem gameLoop_terminated (s : State) (rng : Rng) (hstop : s.running = false) :
    (∀ timestamp, gameLoop s timestamp rng =
      some ⟨{ s with lastFrameTime := timestamp }, rng, 0⟩) ∧
    (∀ timestamps : List ℚ, ∃ s', runFrames s rng timestamps = some (s', rng) ∧
      s'.snake = s.snake ∧ s'.dir = s.dir ∧ s'.nextDir = s.nextDir ∧ s'.food = s.food ∧
      s'.score = s.score ∧ s'.running = false ∧ s'.backgroundIndex = s.backgroundIndex ∧
      s'.accumulator = s.accumulator) := by
  have hone : ∀ (s : State), s.running = false → ∀ timestamp, gameLoop s timestamp rng =
      some ⟨{ s with lastFrameTime := timestamp }, rng, 0⟩ := by
    intro s hs timestamp
    unfold gameLoop
    by_cases h0 : s.lastFrameTime = 0 <;> simp [h0, hs]
  refine ⟨hone s hstop, fun timestamps => ?_⟩
  induction timestamps generalizing s with
  | nil => exact ⟨s, rfl, rfl, rfl, rfl, rfl, rfl, hstop, rfl, rfl⟩
  | cons timestamp rest ih =>
    obtain ⟨s', h, h1, h2, h3, h4, h5, h6, h7, h8⟩ :=
      ih { s with lastFrameTime := timestamp } hstop
    refine ⟨s', ?_, h1, h2, h3, h4, h5, h6, h7, h8⟩
    rw [runFrames, hone s hstop timestamp]
    exact h

/-- C6, amended, on the stopped start position: three frames leave the snake
where it was. -/
theorem gameLoop_terminated_witness :
    gameLoop sStopped 500 rngZero = some ⟨{ sStopped with lastFrameTime := 500 }, rngZero, 0⟩ ∧
    ∃ s', runFrames sStopped rngZero [500, 800, 1100] = some (s', rngZero) ∧
      s'.snake = [⟨8, 10⟩, ⟨7, 10⟩, ⟨6, 10⟩] ∧ s'.running = false := by
  have h := gameLoop_terminated sStopped rngZero rfl
  obtain ⟨s', hs', hsn, -, -, -, -, hr, -, -⟩ := h.2 [500, 800, 1100]
  exact ⟨h.1 500, s', hs', hsn, hr⟩

theorem gameLoop_running (s : State) (timestamp : ℚ) (rng : Rng) (hrun : s.running = true) :
    gameLoop s timestamp rng = drain (framed s timestamp) rng 0 := by
  unfold gameLoop framed frameBudget frameDelta
  by_cases h0 : s.lastFrameTime = 0 <;> simp [h0, hrun]

theorem gameLoop_stopped (s : State) (timestamp : ℚ) (rng : Rng) (hstop : s.running = false) :
    gameLoop s timestamp rng = some ⟨{ s with lastFrameTime := timestamp }, rng, 0⟩ := by
  unfold gameLoop
  by_cases h0 : s.lastFrameTime = 0 <;> simp [h0, hstop]

theorem frameBudget_nonneg (s : State) (timestamp : ℚ) (hacc : 0 ≤ s.accumulator)
    (hdelta : 0 ≤ frameDelta s timestamp) : 0 ≤ frameBudget s timestamp := by
  unfold frameBudget
  have : 0 ≤ min (frameDelta s timestamp) 250 := le_min hdelta (by norm_num)
  linarith

/-- C9, the claim as stated, fails: the frame at time 251 on the snake at the
left wall (accumulator 0, last frame at time 1, so a delta of 250) makes one
tick, which ends the game; the loop then stops with 135 ms still in the
accumulator, more than the tick interval. -/
theorem gameLoop_accumulator_counterexample :
    0 ≤ sWall.accumulator ∧ 0 ≤ frameDelta sWall 251 ∧
    ∃ f, gameLoop sWall 251 rngZero = some f ∧ f.ticks = 1 ∧ f.state.running = false ∧
      f.state.accumulator = 135 ∧ ¬ f.state.accumulator < TICK_MS := by
  have hb : frameBudget sWall 251 = 250 := by
    norm_num [frameBudget, frameDelta, sWall, mkState]
  have hu : update (framed sWall 251) rngZero =
      some (endGame (framed sWall 251), rngZero) := by
    rw [update_cons _ rngZero ⟨0, 10⟩ [⟨1, 10⟩, ⟨2, 10⟩] rfl]
    rfl
  have hg : gameLoop sWall 251 rngZero =
      some ⟨{ endGame (framed sWall 251) with
        accumulator := (endGame (framed sWall 251)).accumulator - TICK_MS }, rngZero, 1⟩ := by
    rw [gameLoop_running sWall 251 rngZero rfl,
      drain_step _ _ rngZero rngZero 0 (by show (115 : ℚ) ≤ frameBudget sWall 251; rw [hb]; norm_num)
        rfl hu]
    exact drain_stop _ _ _ (fun h => absurd h.2 (by decide))
  refine ⟨le_refl _, by norm_num [frameDelta, sWall, mkState], _, hg, rfl, rfl, ?_, ?_⟩
  · show frameBudget sWall 251 - 115 = 135
    rw [hb]; norm_num
  · show ¬ frameBudget sWall 251 - 115 < 115
    rw [hb]; norm_num

/-- C9, amended. A frame that starts with a non-negative accumulator and
measures a non-negative delta returns whenever the snake is non-empty, and
after it the accumulator is non-negative, and strictly below the tick interval
whenever the game is still running. (A frame whose tick ends the game, or that
starts on a stopped game, leaves the remaining time undrained.) -/
theorem gameLoop_accumulator (s : State) (timestamp : ℚ) (rng : Rng)
    (hacc : 0 ≤ s.accumulator) (hdelta : 0 ≤ frameDelta s timestamp) :
    (s.snake ≠ [] → ∃ f, gameLoop s timestamp rng = some f) ∧
    ∀ f, gameLoop s timestamp rng = some f →
      0 ≤ f.state.accumulator ∧ (f.state.running = true → f.state.accumulator < TICK_MS) := by
  cases hrun : s.running with
  | false =>
    rw [gameLoop_stopped s timestamp rng hrun]
    refine ⟨fun _ => ⟨_, rfl⟩, fun f hf => ?_⟩
    simp only [Option.some.injEq] at hf
    subst hf
    refine ⟨hacc, fun h => ?_⟩
    simp only at h
    rw [hrun] at h
    exact absurd h (by decide)
  | true =>
    rw [gameLoop_running s timestamp rng hrun]
    refine ⟨fun hne => drain_total _ (framed s timestamp) rng 0 rfl hne, fun f hf => ?_⟩
    obtain ⟨j, -, -, -, hnn, hr⟩ := drain_spec _ (framed s timestamp) rng 0 f rfl hf
    exact ⟨hnn (frameBudget_nonneg s timestamp hacc hdelta), fun h => (hr h).2⟩

/-- C9, amended, on the frame at time 201 on the start position (a delta of
200 ms on an empty accumulator). -/
theorem gameLoop_accumulator_witness :
    (0 : ℚ) ≤ sStart.accumulator ∧ 0 ≤ frameDelta sStart 201 ∧
    (∃ f, gameLoop sStart 201 rngZero = some f) ∧
    ∀ f, gameLoop sStart 201 rngZero = some f →
      0 ≤ f.state.accumulator ∧ (f.state.running = true → f.state.accumulator < TICK_MS) := by
  have hacc : (0 : ℚ) ≤ sStart.accumulator := le_refl _
  have hdelta : 0 ≤ frameDelta sStart 201 := by norm_num [frameDelta, sStart, mkState]
  have h := gameLoop_accumulator sStart 201 rngZero hacc hdelta
  exact ⟨hacc, hdelta, h.1 (by decide), h.2⟩

/-- C10. Take a frame on a running state and let `A` be the old accumulator
plus the frame delta clamped to 250. The frame returns whenever the snake is
non-empty, and when it returns it has made at most `⌊A / 115⌋` calls of
`update()` and taken 115 off the accumulator for each. If no tick ended the
game, that is if the game still runs after the frame, the number of calls is
exactly `⌊A / 115⌋` (none for a negative `A`) and, for `A ≥ 0`, the accumulator
ends at `A - 115 * ⌊A / 115⌋`, the remainder of `A` modulo 115. A frame that
starts with an accumulator below 115 makes at most 3 calls. -/
theorem gameLoop_tick_count (s : State) (timestamp : ℚ) (rng : Rng)
    (hrun : s.running = true) :
    (s.snake ≠ [] → ∃ f, gameLoop s timestamp rng = some f) ∧
    ∀ f, gameLoop s timestamp rng = some f →
      f.ticks ≤ ⌊frameBudget s timestamp / TICK_MS⌋.toNat ∧
      f.state.accumulator = frameBudget s timestamp - TICK_MS * (f.ticks : ℚ) ∧
      (f.state.running = true →
        f.ticks = ⌊frameBudget s timestamp / TICK_MS⌋.toNat ∧
        (0 ≤ frameBudget s timestamp →
          f.state.accumulator =
            frameBudget s timestamp - TICK_MS * (⌊frameBudget s timestamp / TICK_MS⌋ : ℚ))) ∧
      (s.accumulator < TICK_MS → f.ticks ≤ 3) := by
  rw [gameLoop_running s timestamp rng hrun]
  refine ⟨fun hne => drain_total _ (framed s timestamp) rng 0 rfl hne, fun f hf => ?_⟩
  obtain ⟨j, hj, ht, ha, -, hr⟩ := drain_spec _ (framed s timestamp) rng 0 f rfl hf
  have hfa : (framed s timestamp).accumulator = frameBudget s timestamp := rfl
  rw [hfa] at hj ha hr
  have ht' : f.ticks = j := by omega
  refine ⟨by omega, by rw [ht', ha], fun hrunning => ?_, fun hlt => ?_⟩
  · obtain ⟨hjn, -⟩ := hr hrunning
    refine ⟨by omega, fun hA => ?_⟩
    have hfl : (0 : Int) ≤ ⌊frameBudget s timestamp / TICK_MS⌋ := by
      rw [Int.floor_nonneg]
      exact div_nonneg hA (by norm_num)
    have hcast : ((⌊frameBudget s timestamp / TICK_MS⌋.toNat : Int) : ℚ) =
        (⌊frameBudget s timestamp / TICK_MS⌋ : ℚ) := by
      rw [Int.toNat_of_nonneg hfl]
    rw [ha, hjn, ← hcast]
    norm_cast
  · have hA : frameBudget s timestamp < 365 := by
      unfold frameBudget
      have h1 : min (frameDelta s timestamp) 250 ≤ 250 := min_le_right _ _
      have h2 : s.accumulator < 115 := hlt
      linarith
    have hfl : ⌊frameBudget s timestamp / TICK_MS⌋ < 4 := by
      rw [Int.floor_lt]
      show frameBudget s timestamp / 115 < ((4 : Int) : ℚ)
      rw [div_lt_iff₀ (by norm_num)]
      push_cast
      linarith
    omega

/-- C10 on the scenario of the specification: 90 ms of residue and a clamped
delta of 250 ms give `A = 340`; the frame makes exactly 2 ticks (230 ms
consumed), the game still runs and 110 ms remain. -/
theorem gameLoop_tick_count_witness :
    frameBudget sResidue 251 = 340 ∧
    ∃ f, gameLoop sResidue 251 rngZero = some f ∧ f.state.running = true ∧ f.ticks = 2 ∧
      f.state.accumulator = 110 ∧ f.state.snake = [⟨10, 10⟩, ⟨9, 10⟩, ⟨8, 10⟩] := by
  have hb : frameBudget sResidue 251 = 340 := by
    norm_num [frameBudget, frameDelta, sResidue, sStart, mkState]
  have hfloor : ⌊(340 : ℚ) / TICK_MS⌋ = 2 := by
    rw [Int.floor_eq_iff]
    constructor <;> norm_num
  have hcount := gameLoop_tick_count sResidue 251 rngZero rfl
  obtain ⟨f, hf⟩ := hcount.1 (by decide)
  obtain ⟨-, -, hrunning, -⟩ := hcount.2 f hf
  rw [hb, hfloor] at hrunning
  have hu1 : update (framed sResidue 251) rngZero =
      some ({ framed sResidue 251 with snake := [⟨9, 10⟩, ⟨8, 10⟩, ⟨7, 10⟩] }, rngZero) := by
    rw [update_cons _ rngZero ⟨8, 10⟩ [⟨7, 10⟩, ⟨6, 10⟩] rfl]
    rfl
  have hu2 : update { framed sResidue 251 with
        snake := [⟨9, 10⟩, ⟨8, 10⟩, ⟨7, 10⟩]
        accumulator := frameBudget sResidue 251 - TICK_MS } rngZero =
      some ({ framed sResidue 251 with
        snake := [⟨10, 10⟩, ⟨9, 10⟩, ⟨8, 10⟩]
        accumulator := frameBudget sResidue 251 - TICK_MS }, rngZero) := by
    rw [update_cons _ rngZero ⟨9, 10⟩ [⟨8, 10⟩, ⟨7, 10⟩] rfl]
    rfl
  have hg : gameLoop sResidue 251 rngZero =
      some ⟨{ framed sResidue 251 with
        snake := [⟨10, 10⟩, ⟨9, 10⟩, ⟨8, 10⟩]
        accumulator := frameBudget sResidue 251 - TICK_MS - TICK_MS }, rngZero, 2⟩ := by
    rw [gameLoop_running sResidue 251 rngZero rfl]
    refine (drain_step (framed sResidue 251) _ rngZero rngZero 0
      (by show (115 : ℚ) ≤ frameBudget sResidue 251; rw [hb]; norm_num) rfl hu1).trans ?_
    refine (drain_step _ _ rngZero rngZero 1
      (by show (115 : ℚ) ≤ frameBudget sResidue 251 - 115; rw [hb]; norm_num) rfl hu2).trans ?_
    exact drain_stop _ _ _
      (fun h => absurd h.1 (by
        show ¬ (115 : ℚ) ≤ frameBudget sResidue 251 - 115 - 115
        rw [hb]; norm_num))
  rw [hg] at hf
  simp only [Option.some.injEq] at hf
  have hr : f.state.running = true := by rw [← hf]; rfl
  have hs : f.state.snake = [⟨10, 10⟩, ⟨9, 10⟩, ⟨8, 10⟩] := by rw [← hf]
  obtain ⟨ht, ha⟩ := hrunning hr
  refine ⟨hb, f, ?_, hr, ht, ?_, hs⟩
  · rw [hg, hf]
  · rw [ha (by norm_num)]
    norm_num

/-! ## Direction requests, continued -/

theorem setDirection_cases (s : State) (x y : Int) :
    setDirection s x y = s ∨
    (s.running = true ∧ ¬ (x = -s.dir.x ∧ y = -s.dir.y) ∧
      ¬ (x = -s.nextDir.x ∧ y = -s.nextDir.y) ∧
      setDirection s x y = { s with nextDir := ⟨x, y⟩ }) := by
  unfold setDirection
  cases hrun : s.running with
  | false => left; rfl
  | true =>
    by_cases h1 : x = -s.dir.x ∧ y = -s.dir.y
    · left; simp [h1]
    · by_cases h2 : x = -s.nextDir.x ∧ y = -s.nextDir.y
      · left; simp [h2]
      · right
        refine ⟨rfl, h1, h2, ?_⟩
        have hc : ((x == -s.dir.x && y == -s.dir.y) ||
            (x == -s.nextDir.x && y == -s.nextDir.y)) = false := by
          rw [← Bool.not_eq_true]
          simpa using ⟨fun a => (not_and.1 h1) a, fun a => (not_and.1 h2) a⟩
        simp [hc]

theorem setDirection_keeps (s : State) (x y : Int) :
    (setDirection s x y).snake = s.snake ∧ (setDirection s x y).dir = s.dir ∧
    (setDirection s x y).food = s.food ∧ (setDirection s x y).score = s.score ∧
    (setDirection s x y).running = s.running := by
  rcases setDirection_cases s x y with h | ⟨-, -, -, h⟩ <;> rw [h] <;>
    exact ⟨rfl, rfl, rfl, rfl, rfl⟩

/-- C12. Calling `setDirection(x, y)` twice in a row gives the same state as
calling it once, for every state and all integer arguments (so in particular
for `x`, `y` in {-1, 0, 1}). -/
theorem setDirection_idempotent (s : State) (x y : Int) :
    setDirection (setDirection s x y) x y = setDirection s x y := by
  rcases setDirection_cases s x y with h | ⟨hrun, h1, h2, h⟩
  · rw [h, h]
  · rw [h]
    rcases setDirection_cases { s with nextDir := ⟨x, y⟩ } x y with h' | ⟨-, -, -, h'⟩
    · exact h'
    · exact h'

/-- C14. A call of `setDirection(x, y)` changes no field other than `nextDir`:
snake, current direction, food, score, running flag, accumulator, last frame
time and background index are as before, so the direction of the tick under way
is not affected. With the running flag cleared `nextDir` is unchanged too. -/
theorem setDirection_frame (s : State) (x y : Int) :
    (setDirection s x y).snake = s.snake ∧ (setDirection s x y).dir = s.dir ∧
    (setDirection s x y).food = s.food ∧ (setDirection s x y).score = s.score ∧
    (setDirection s x y).running = s.running ∧
    (setDirection s x y).accumulator = s.accumulator ∧
    (setDirection s x y).lastFrameTime = s.lastFrameTime ∧
    (setDirection s x y).backgroundIndex = s.backgroundIndex ∧
    (s.running = false → setDirection s x y = s) := by
  rcases setDirection_cases s x y with h | ⟨hrun, -, -, h⟩
  · rw [h]
    exact ⟨rfl, rfl, rfl, rfl, rfl, rfl, rfl, rfl, fun _ => rfl⟩
  · rw [h]
    exact ⟨rfl, rfl, rfl, rfl, rfl, rfl, rfl, rfl,
      fun hstop => absurd (hrun.symm.trans hstop) (by decide)⟩

/-- C14 on the start position: a turn upwards is stored in `nextDir` only, and
on the stopped start position it is dropped altogether. -/
theorem setDirection_frame_witness :
    setDirection sStart 0 (-1) = { sStart with nextDir := ⟨0, -1⟩ } ∧
    (setDirection sStart 0 (-1)).dir = ⟨1, 0⟩ ∧
    setDirection sStopped 0 (-1) = sStopped :=
  ⟨by decide, (setDirection_frame sStart 0 (-1)).2.1,
    (setDirection_frame sStopped 0 (-1)).2.2.2.2.2.2.2.2 rfl⟩

/-! ## Facts about a tick and a reset that the invariants need -/

/-- How a tick that returns changed the state: it ended the game, ate, or
moved. -/
theorem update_cases (s s' : State) (rng rng' : Rng) (h : update s rng = some (s', rng')) :
    ∃ head tail, s.snake = head :: tail ∧
      ((collision s head = true ∧ s' = endGame { s with dir := s.nextDir } ∧ rng' = rng) ∨
        (collision s head = false ∧ isEating s head = true ∧
          (s', rng') = spawnFood (eaten s head) rng) ∨
        (collision s head = false ∧ isEating s head = false ∧
          s' = { s with dir := s.nextDir, snake := newHead s head :: s.snake.dropLast } ∧
          rng' = rng)) := by
  by_cases hnil : s.snake = []
  · unfold update at h
    simp [hnil] at h
  · obtain ⟨head, tail, hs⟩ := List.exists_cons_of_ne_nil hnil
    refine ⟨head, tail, hs, ?_⟩
    rw [update_cons s rng head tail hs] at h
    cases hc : collision s head with
    | true =>
      rw [hc] at h
      simp only [if_true, Option.some.injEq, Prod.mk.injEq] at h
      exact Or.inl ⟨rfl, h.1.symm, h.2.symm⟩
    | false =>
      rw [hc] at h
      cases he : isEating s head with
      | true =>
        rw [he] at h
        simp only [if_true, if_false, Bool.false_eq_true, Option.some.injEq] at h
        exact Or.inr (Or.inl ⟨rfl, rfl, h.symm⟩)
      | false =>
        rw [he] at h
        simp only [if_false, Bool.false_eq_true, Option.some.injEq, Prod.mk.injEq] at h
        exact Or.inr (Or.inr ⟨rfl, rfl, h.1.symm, h.2.symm⟩)

theorem update_dirs (s s' : State) (rng rng' : Rng) (h : update s rng = some (s', rng')) :
    s'.dir = s.nextDir ∧ s'.nextDir = s.nextDir := by
  obtain ⟨head, tail, -, hc | hc | hc⟩ := update_cases s s' rng rng' h
  · rw [hc.2.1]; exact ⟨rfl, rfl⟩
  · have hfr := spawnFood_frame (eaten s head) rng
    rw [← hc.2.2] at hfr
    exact ⟨hfr.2.1, hfr.2.2.1⟩
  · rw [hc.2.2.1]; exact ⟨rfl, rfl⟩

theorem resetGame_fields (s0 : State) (rng : Rng) :
    (resetGame s0 rng).1.snake = [⟨8, 10⟩, ⟨7, 10⟩, ⟨6, 10⟩] ∧
    (resetGame s0 rng).1.dir = ⟨1, 0⟩ ∧ (resetGame s0 rng).1.nextDir = ⟨1, 0⟩ ∧
    (resetGame s0 rng).1.score = 0 := by
  unfold resetGame
  have hfr := spawnFood_frame
    { s0 with
      snake := [⟨8, 10⟩, ⟨7, 10⟩, ⟨6, 10⟩]
      dir := ⟨1, 0⟩
      nextDir := ⟨1, 0⟩
      score := 0
      running := true
      accumulator := 0
      lastFrameTime := 0
      backgroundIndex := 0 } rng
  exact ⟨hfr.1, hfr.2.1, hfr.2.2.1, hfr.2.2.2.1⟩

theorem spawnFoodLoop_free (snake : List Pos) (rng : Rng)
    (hfree : (⟨((rng 0).val : Int), ((rng 1).val : Int)⟩ : Pos) ∉ snake) :
    spawnFoodLoop snake 0 rng =
      (some ⟨((rng 0).val : Int), ((rng 1).val : Int)⟩, rng.drop 2) := by
  rw [spawnFoodLoop]
  have h1 : ¬ 0 + 1 > maxAttempts := by decide
  have h2 : snake.any (fun part => part.x == ((rng 0).val : Int) && part.y == ((rng 1).val : Int))
      = false := by
    rw [← Bool.not_eq_true]
    exact fun h => hfree ((any_cell_iff snake _).1 h)
  simp only [h1, h2, if_false, Bool.false_eq_true]

/-! ## The terminated state -/

/-- C13. With the running flag cleared, each of `setDirection` (any arguments),
`update()` (which returns whenever the snake is non-empty), `spawnFood()` (any
samples) and a `gameLoop` frame (any time stamp) leaves the flag cleared.
`resetGame()` is the operation that sets it: after a reset the game runs
whenever the first candidate of its food spawn is off the start snake. -/
theorem terminated_absorbing (s : State) (rng : Rng) (hstop : s.running = false) :
    (∀ x y, (setDirection s x y).running = false) ∧
    (s.snake ≠ [] → ∃ s' rng', update s rng = some (s', rng')) ∧
    (∀ s' rng', update s rng = some (s', rng') → s'.running = false) ∧
    (spawnFood s rng).1.running = false ∧
    (∀ timestamp, ∃ f, gameLoop s timestamp rng = some f ∧ f.state.running = false) ∧
    ((⟨((rng 0).val : Int), ((rng 1).val : Int)⟩ : Pos) ∉
        ([⟨8, 10⟩, ⟨7, 10⟩, ⟨6, 10⟩] : List Pos) →
      (resetGame s rng).1.running = true) := by
  refine ⟨fun x y => ?_, update_some s rng, fun s' rng' h => ?_, ?_, fun timestamp => ?_,
    fun hfree => ?_⟩
  · rw [(setDirection_keeps s x y).2.2.2.2]
    exact hstop
  · have hfr := (update_frame s s' rng rng' h).2.2.2
    rw [← Bool.not_eq_true] at hstop ⊢
    exact fun hr => hstop (hfr hr)
  · have hfr := (spawnFood_frame s rng).2.2.2.2.2.2.2
    rw [← Bool.not_eq_true] at hstop ⊢
    exact fun hr => hstop (hfr hr)
  · exact ⟨_, gameLoop_stopped s timestamp rng hstop, hstop⟩
  · unfold resetGame spawnFood
    rw [spawnFoodLoop_free _ rng hfree]

/-- C13 on the stopped start position, and a reset of it that sets the game
running again. -/
theorem terminated_absorbing_witness :
    (setDirection sStopped 0 (-1)).running = false ∧
    (∃ s' rng', update sStopped rngZero = some (s', rng')) ∧
    (∀ s' rng', update sStopped rngZero = some (s', rng') → s'.running = false) ∧
    (spawnFood sStopped rngZero).1.running = false ∧
    (∃ f, gameLoop sStopped 500 rngZero = some f ∧ f.state.running = false) ∧
    (resetGame sStopped rngZero).1.running = true := by
  have h := terminated_absorbing sStopped rngZero rfl
  exact ⟨h.1 0 (-1), h.2.1 (by decide), h.2.2.1, h.2.2.2.1, h.2.2.2.2.1 500,
    h.2.2.2.2.2 (by decide)⟩

/-! ## Reversals -/

theorem isUnitDir_ne_neg (x y : Int) (h : isUnitDir x y) : ¬ (x = -x ∧ y = -y) := by
  unfold isUnitDir at h
  omega

/-- In every reachable state, with unit directions as arguments of
`setDirection`, both directions are unit directions and the pending one is not
the opposite of the current one. -/
theorem unit_dirs_invariant (s : State) (h : ReachableBy isUnitDir s) :
    isUnitDir s.dir.x s.dir.y ∧ isUnitDir s.nextDir.x s.nextDir.y ∧
    ¬ (s.nextDir.x = -s.dir.x ∧ s.nextDir.y = -s.dir.y) := by
  induction h with
  | reset s0 rng =>
    obtain ⟨-, hd, hn, -⟩ := resetGame_fields s0 rng
    rw [hd, hn]
    exact ⟨Or.inl ⟨rfl, rfl⟩, Or.inl ⟨rfl, rfl⟩, by decide⟩
  | tick s s' rng rng' _ hu ih =>
    obtain ⟨hd, hn⟩ := update_dirs s s' rng rng' hu
    rw [hd, hn]
    exact ⟨ih.2.1, ih.2.1, isUnitDir_ne_neg _ _ ih.2.1⟩
  | turn s x y _ hok ih =>
    rcases setDirection_cases s x y with h | ⟨-, h1, -, h⟩
    · rw [h]; exact ih
    · rw [h]; exact ⟨ih.1, hok, h1⟩

/-- C11. In every state reachable from `resetGame()` by `update()` ticks and
`setDirection` calls with unit directions, the pending direction is not the
opposite of the current one; so the direction a tick commits, whatever calls
of `setDirection` came before it, is not the negation of the direction that
was current before, which is the one the previous tick committed. -/
theorem reachable_no_reversal (s : State) (h : ReachableBy isUnitDir s) :
    ¬ (s.nextDir.x = -s.dir.x ∧ s.nextDir.y = -s.dir.y) ∧
    ∀ rng s' rng', update s rng = some (s', rng') →
      s'.dir = s.nextDir ∧ ¬ (s'.dir.x = -s.dir.x ∧ s'.dir.y = -s.dir.y) := by
  have hinv := (unit_dirs_invariant s h).2.2
  refine ⟨hinv, fun rng s' rng' hu => ?_⟩
  have hd := (update_dirs s s' rng rng' hu).1
  rw [hd]
  exact ⟨rfl, hinv⟩

/-- C11 on a double key press between two ticks: after a reset (direction
right) the presses up and then left leave "up" pending, not "left". -/
theorem reachable_no_reversal_witness :
    (setDirection (setDirection (resetGame sStopped rngZero).1 0 (-1)) (-1) 0).nextDir =
      ⟨0, -1⟩ ∧
    ¬ ((setDirection (setDirection (resetGame sStopped rngZero).1 0 (-1)) (-1) 0).nextDir.x =
        -(setDirection (setDirection (resetGame sStopped rngZero).1 0 (-1)) (-1) 0).dir.x ∧
      (setDirection (setDirection (resetGame sStopped rngZero).1 0 (-1)) (-1) 0).nextDir.y =
        -(setDirection (setDirection (resetGame sStopped rngZero).1 0 (-1)) (-1) 0).dir.y) := by
  have hreach : ReachableBy isUnitDir
      (setDirection (setDirection (resetGame sStopped rngZero).1 0 (-1)) (-1) 0) :=
    .turn _ _ _ (.turn _ _ _ (.reset sStopped rngZero) (by unfold isUnitDir; decide))
      (by unfold isUnitDir; decide)
  refine ⟨?_, (reachable_no_reversal _ hreach).1⟩
  have hr : resetGame sStopped rngZero =
      ({ sStopped with running := true, accumulator := 0, lastFrameTime := 0, food := ⟨0, 0⟩ },
        rngZero.drop 2) := by
    unfold resetGame spawnFood
    rw [spawnFoodLoop_free _ rngZero (by decide)]
    rfl
  rw [hr]
  decide

/-- C16, the claim as stated, fails on a snake of exactly two segments: the
second segment is the tail, which `hitSelf` leaves out on a tick that does not
eat, so the reversing head moves into it, the game keeps running and the snake
turns from [(5,5),(4,5)] into [(4,5),(5,5)]. -/
theorem update_reversal_counterexample :
    sShort.running = true ∧ sShort.snake = [⟨5, 5⟩, ⟨4, 5⟩] ∧
    (⟨4, 5⟩ : Pos) = ⟨5 - sShort.dir.x, 5 - sShort.dir.y⟩ ∧
    sShort.nextDir = ⟨-sShort.dir.x, -sShort.dir.y⟩ ∧
    update sShort rngZero =
      some ({ sShort with dir := ⟨-1, 0⟩, snake := [⟨4, 5⟩, ⟨5, 5⟩] }, rngZero) ∧
    ∀ s' rng', update sShort rngZero = some (s', rng') →
      s'.running = true ∧ s'.snake ≠ sShort.snake := by
  have h : update sShort rngZero =
      some ({ sShort with dir := ⟨-1, 0⟩, snake := [⟨4, 5⟩, ⟨5, 5⟩] }, rngZero) := by
    rw [update_cons sShort rngZero ⟨5, 5⟩ [⟨4, 5⟩] rfl]
    rfl
  refine ⟨rfl, rfl, by decide, by decide, h, fun s' rng' hu => ?_⟩
  rw [h] at hu
  simp only [Option.some.injEq, Prod.mk.injEq] at hu
  rw [← hu.1]
  exact ⟨rfl, by decide⟩

/-- C16, amended. On a snake of at least three segments whose second segment is
directly behind the head, a tick whose pending direction is the opposite of the
current one hits the body: `update()` returns with the running flag cleared and
the snake, food and score unchanged. This holds whether or not the tick would
eat and wherever the cells lie. -/
theorem update_reversal_collides (s : State) (rng : Rng) (head second third : Pos)
    (rest : List Pos)
    (hs : s.snake = head :: second :: third :: rest)
    (hbehind : second = ⟨head.x - s.dir.x, head.y - s.dir.y⟩)
    (hrev : s.nextDir = ⟨-s.dir.x, -s.dir.y⟩) :
    hitSelf s.snake (newHead s head) (isEating s head) = true ∧
    ∃ s', update s rng = some (s', rng) ∧
      s'.running = false ∧ s'.snake = s.snake ∧ s'.food = s.food ∧ s'.score = s.score := by
  have hnh : newHead s head = second := by
    rw [hbehind]
    unfold newHead
    rw [hrev]
    simp only [Pos.mk.injEq]
    constructor <;> ring
  have hself : hitSelf s.snake (newHead s head) (isEating s head) = true := by
    unfold hitSelf
    simp only
    rw [any_cell_iff, hnh, hs]
    cases isEating s head
    · simp [List.dropLast]
    · simp
  have hc : collision s head = true := by
    unfold collision
    rw [hself, Bool.or_true]
  refine ⟨hself, endGame { s with dir := s.nextDir }, ?_, rfl, rfl, rfl, rfl⟩
  rw [update_cons s rng head _ hs, hc]
  rfl

/-- C16, amended, on the start position with a reversal queued: the head at
(8,10) would move onto the segment (7,10), and the game ends. -/
theorem update_reversal_collides_witness :
    hitSelf sReverse.snake (newHead sReverse ⟨8, 10⟩) (isEating sReverse ⟨8, 10⟩) = true ∧
    ∃ s', update sReverse rngZero = some (s', rngZero) ∧
      s'.running = false ∧ s'.snake = [⟨8, 10⟩, ⟨7, 10⟩, ⟨6, 10⟩] ∧ s'.food = ⟨3, 3⟩ ∧
      s'.score = 0 :=
  update_reversal_collides sReverse rngZero ⟨8, 10⟩ ⟨7, 10⟩ ⟨6, 10⟩ [] rfl (by decide) (by decide)

/-! ## Well-formed snakes -/

/-- C15. A tick on a snake that is non-empty, lies on the board and has
pairwise distinct segments returns, and the snake after it is again non-empty,
on the board and pairwise distinct, whatever the food and the pending direction
and whether the tick moves, eats or ends the game. -/
theorem update_wellformed (s : State) (rng : Rng) (hne : s.snake ≠ [])
    (hgrid : ∀ p ∈ s.snake, inGrid p) (hnodup : s.snake.Nodup) :
    ∃ s' rng', update s rng = some (s', rng') ∧
      s'.snake ≠ [] ∧ (∀ p ∈ s'.snake, inGrid p) ∧ s'.snake.Nodup := by
  obtain ⟨s', rng', hu⟩ := update_some s rng hne
  refine ⟨s', rng', hu, ?_⟩
  obtain ⟨head, tail, hs, hc | hc | hc⟩ := update_cases s s' rng rng' hu
  · rw [hc.2.1]
    exact ⟨hne, hgrid, hnodup⟩
  · obtain ⟨hcoll, he, hsp⟩ := hc
    have hsnake : s'.snake = newHead s head :: s.snake := by
      have hfr := (spawnFood_frame (eaten s head) rng).1
      rw [← hsp] at hfr
      exact hfr
    have hcoll2 := hcoll
    unfold collision at hcoll2
    rw [Bool.or_eq_false_iff, he] at hcoll2
    have hin : inGrid (newHead s head) := by
      have := hcoll2.1
      rw [← Bool.not_eq_true, hitWall_iff] at this
      exact not_not.1 this
    have hnot : newHead s head ∉ s.snake := by
      have := hcoll2.2
      unfold hitSelf at this
      simp only [if_true] at this
      rw [← Bool.not_eq_true, any_cell_iff] at this
      exact this
    rw [hsnake]
    refine ⟨by simp, fun p hp => ?_, List.nodup_cons.2 ⟨hnot, hnodup⟩⟩
    rcases List.mem_cons.1 hp with h | h
    · rw [h]; exact hin
    · exact hgrid p h
  · obtain ⟨hcoll, he, hs', -⟩ := hc
    have hcoll2 := hcoll
    unfold collision at hcoll2
    rw [Bool.or_eq_false_iff, he] at hcoll2
    have hin : inGrid (newHead s head) := by
      have := hcoll2.1
      rw [← Bool.not_eq_true, hitWall_iff] at this
      exact not_not.1 this
    have hnot : newHead s head ∉ s.snake.dropLast := by
      have := hcoll2.2
      unfold hitSelf at this
      simp only [if_false, Bool.false_eq_true] at this
      rw [← Bool.not_eq_true, any_cell_iff] at this
      exact this
    rw [hs']
    refine ⟨by simp, fun p hp => ?_,
      List.nodup_cons.2 ⟨hnot, List.Nodup.sublist (List.dropLast_sublist _) hnodup⟩⟩
    rcases List.mem_cons.1 hp with h | h
    · rw [h]; exact hin
    · exact hgrid p (List.dropLast_subset _ h)

/-- C15 on the start position. -/
theorem update_wellformed_witness :
    ∃ s' rng', update sStart rngZero = some (s', rng') ∧
      s'.snake ≠ [] ∧ (∀ p ∈ s'.snake, inGrid p) ∧ s'.snake.Nodup :=
  update_wellformed sStart rngZero (by decide) (by decide) (by decide)

/-! ## Giving up on the food spawn -/

theorem rngHit_drop : rngHit.drop 2 = rngHit := by
  funext n
  show rngHit (n + 2) = rngHit n
  unfold rngHit
  rw [Nat.add_mod_right]

theorem spawnFoodLoop_rngHit (snake : List Pos) (hhit : (⟨8, 10⟩ : Pos) ∈ snake)
    (n attempts : Nat) (hn : maxAttempts + 1 - attempts = n + 1) :
    spawnFoodLoop snake attempts rngHit = (none, rngHit) := by
  induction n generalizing attempts with
  | zero =>
    rw [spawnFoodLoop]
    have : attempts + 1 > maxAttempts := by omega
    simp [this, rngHit_drop]
  | succ n ih =>
    rw [spawnFoodLoop]
    have h1 : ¬ attempts + 1 > maxAttempts := by omega
    have h2 : snake.any (fun part => part.x == ((rngHit 0).val : Int) &&
        part.y == ((rngHit 1).val : Int)) = true :=
      (any_cell_iff snake ⟨((rngHit 0).val : Int), ((rngHit 1).val : Int)⟩).2 hhit
    simp only [h1, h2, if_true, if_false]
    rw [rngHit_drop]
    exact ih (attempts + 1) (by omega)

/-- C17, the claim as stated, fails: a spawn whose random samples make every
candidate the cell (8, 10) of the start snake gives up after the attempt bound
and ends the game, although all but three cells of the board are free, the
cell (0, 0) among them. The same happens in the spawn of a reset. -/
theorem spawnFood_gives_up_with_free_cells :
    spawnFood sStart rngHit = (endGame sStart, rngHit) ∧
    (resetGame sStopped rngHit).1.running = false ∧
    (resetGame sStopped rngHit).1.snake = [⟨8, 10⟩, ⟨7, 10⟩, ⟨6, 10⟩] ∧
    inGrid ⟨0, 0⟩ ∧ (⟨0, 0⟩ : Pos) ∉ (resetGame sStopped rngHit).1.snake := by
  have h1 : spawnFood sStart rngHit = (endGame sStart, rngHit) := by
    unfold spawnFood
    rw [spawnFoodLoop_rngHit sStart.snake (by decide) maxAttempts 0 rfl]
  have h2 : (resetGame sStopped rngHit).1.running = false := by
    unfold resetGame spawnFood
    rw [spawnFoodLoop_rngHit _ (by decide) maxAttempts 0 rfl]
    rfl
  have h3 := (resetGame_fields sStopped rngHit).1
  refine ⟨h1, h2, h3, by decide, ?_⟩
  rw [h3]
  decide

theorem candidateAt_drop (rng : Rng) (k : Nat) :
    candidateAt (rng.drop 2) k = candidateAt rng (k + 1) := by
  unfold candidateAt Rng.drop
  have h1 : 2 * k + 2 = 2 * (k + 1) := by omega
  have h2 : 2 * k + 1 + 2 = 2 * (k + 1) + 1 := by omega
  rw [h1, h2]

/-- The sampling loop gives up exactly when every candidate it tests, one for
each attempt the bound still allows, is on the snake. -/
theorem spawnFoodLoop_none_iff (snake : List Pos) (n : Nat) :
    ∀ (attempts : Nat) (rng : Rng), maxAttempts - attempts = n →
      ((spawnFoodLoop snake attempts rng).1 = none ↔
        ∀ k, k < n → candidateAt rng k ∈ snake) := by
  induction n with
  | zero =>
    intro attempts rng hn
    rw [spawnFoodLoop]
    have : attempts + 1 > maxAttempts := by omega
    simp [this]
  | succ n ih =>
    intro attempts rng hn
    rw [spawnFoodLoop]
    have h1 : ¬ attempts + 1 > maxAttempts := by omega
    simp only [h1, if_false]
    by_cases hhit : candidateAt rng 0 ∈ snake
    · have h2 : snake.any (fun part => part.x == ((rng 0).val : Int) &&
          part.y == ((rng 1).val : Int)) = true :=
        (any_cell_iff snake ⟨((rng 0).val : Int), ((rng 1).val : Int)⟩).2 hhit
      simp only [h2, if_true]
      rw [ih (attempts + 1) (rng.drop 2) (by omega)]
      constructor
      · intro h k hk
        cases k with
        | zero => exact hhit
        | succ j =>
          rw [← candidateAt_drop]
          exact h j (by omega)
      · intro h k hk
        rw [candidateAt_drop]
        exact h (k + 1) (by omega)
    · have h2 : snake.any (fun part => part.x == ((rng 0).val : Int) &&
          part.y == ((rng 1).val : Int)) = false := by
        rw [← Bool.not_eq_true]
        exact fun h => hhit ((any_cell_iff snake _).1 h)
      simp only [h2, if_false, Bool.false_eq_true]
      constructor
      · intro h
        exact absurd h (by simp)
      · intro h
        exact absurd (h 0 (by omega)) hhit

/-- C17, amended. On a running state `spawnFood()` clears the running flag
exactly when each of the `GRID_SIZE * GRID_SIZE` candidates it tests is a cell
held by a snake segment; it then leaves the food and every other field as they
were. This says nothing about the cells that were not drawn: they may be
free. -/
theorem spawnFood_gives_up_iff (s : State) (rng : Rng) (hrun : s.running = true) :
    ((spawnFood s rng).1.running = false ↔
      ∀ k, k < GRID_SIZE * GRID_SIZE → candidateAt rng k ∈ s.snake) ∧
    ((spawnFood s rng).1.running = false → (spawnFood s rng).1 = endGame s) := by
  have hloop := spawnFoodLoop_none_iff s.snake maxAttempts 0 rng rfl
  unfold spawnFood
  split
  · rename_i rng' h
    have hnone : (spawnFoodLoop s.snake 0 rng).1 = none := by rw [h]
    exact ⟨⟨fun _ => hloop.1 hnone, fun _ => rfl⟩, fun _ => rfl⟩
  · rename_i c rng' h
    have hsome : (spawnFoodLoop s.snake 0 rng).1 ≠ none := by rw [h]; simp
    have hr : ({ s with food := c } : State).running = true := hrun
    refine ⟨⟨fun hf => ?_, fun hall => absurd (hloop.2 hall) hsome⟩, fun hf => ?_⟩
    · simp only at hf
      rw [hr] at hf
      exact absurd hf (by decide)
    · simp only at hf
      rw [hr] at hf
      exact absurd hf (by decide)

/-- C17, amended, on the start position with the samples 8, 10, 8, 10, ...:
every candidate is the head cell (8, 10), so the spawn gives up and leaves the
food at (3, 3). -/
theorem spawnFood_gives_up_iff_witness :
    (∀ k, k < GRID_SIZE * GRID_SIZE → candidateAt rngHit k ∈ sStart.snake) ∧
    (spawnFood sStart rngHit).1.running = false ∧
    (spawnFood sStart rngHit).1 = endGame sStart := by
  have hall : ∀ k, k < GRID_SIZE * GRID_SIZE → candidateAt rngHit k ∈ sStart.snake := by
    intro k _
    have hk : candidateAt rngHit k = ⟨8, 10⟩ := by
      unfold candidateAt rngHit
      have h0 : 2 * k % 2 = 0 := by omega
      have h1 : (2 * k + 1) % 2 ≠ 0 := by omega
      simp only [h0, h1, if_true, if_false]
      rfl
    rw [hk]
    decide
  have h := spawnFood_gives_up_iff sStart rngHit rfl
  exact ⟨hall, h.1.2 hall, h.2 (h.1.2 hall)⟩

/-! ## Invariants of reachable states -/

/-- In every reachable state the snake has three segments more than the score
counts, and the score is not negative. -/
theorem length_score_invariant (ok : Int → Int → Prop) (s : State) (h : ReachableBy ok s) :
    (s.snake.length : Int) = s.score + 3 ∧ 0 ≤ s.score := by
  induction h with
  | reset s0 rng =>
    obtain ⟨hsn, -, -, hsc⟩ := resetGame_fields s0 rng
    rw [hsn, hsc]
    decide
  | tick s s' rng rng' _ hu ih =>
    obtain ⟨head, tail, hs, hc | hc | hc⟩ := update_cases s s' rng rng' hu
    · rw [hc.2.1]
      exact ih
    · have hfr := spawnFood_frame (eaten s head) rng
      rw [← hc.2.2] at hfr
      rw [hfr.1, hfr.2.2.2.1]
      have hl : ((eaten s head).snake.length : Int) = (s.snake.length : Int) + 1 := by
        simp [eaten]
      have hsc : (eaten s head).score = s.score + 1 := rfl
      rw [hl, hsc]
      omega
    · rw [hc.2.2.1]
      have hl : ((newHead s head :: s.snake.dropLast).length : Int) = (s.snake.length : Int) := by
        rw [hs]
        simp
      show ((newHead s head :: s.snake.dropLast).length : Int) = s.score + 3 ∧ 0 ≤ s.score
      rw [hl]
      exact ih
  | turn s x y _ _ ih =>
    obtain ⟨hsn, -, -, hsc, -⟩ := setDirection_keeps s x y
    rw [hsn, hsc]
    exact ih

/-- C18. In every state reachable from `resetGame()` by `update()` ticks and
`setDirection` calls (any arguments, any samples) the snake length equals the
score plus 3; the score is a non-negative integer, the snake has at least 3
segments, so its head exists and `update()` returns, and a tick leaves the
score as it is or raises it by one. -/
theorem reachable_length_score (ok : Int → Int → Prop) (s : State) (h : ReachableBy ok s) :
    (s.snake.length : Int) = s.score + 3 ∧ 0 ≤ s.score ∧ 3 ≤ s.snake.length ∧
    (∃ head tail, s.snake = head :: tail) ∧
    ∀ rng, ∃ s' rng', update s rng = some (s', rng') ∧
      (s'.score = s.score ∨ s'.score = s.score + 1) := by
  obtain ⟨hlen, hsc⟩ := length_score_invariant ok s h
  have h3 : 3 ≤ s.snake.length := by omega
  have hne : s.snake ≠ [] := by
    intro hnil
    rw [hnil] at h3
    simp at h3
  refine ⟨hlen, hsc, h3, List.exists_cons_of_ne_nil hne, fun rng => ?_⟩
  obtain ⟨s', rng', hu⟩ := update_some s rng hne
  refine ⟨s', rng', hu, ?_⟩
  obtain ⟨head, tail, -, hc | hc | hc⟩ := update_cases s s' rng rng' hu
  · rw [hc.2.1]; exact Or.inl rfl
  · have hfr := spawnFood_frame (eaten s head) rng
    rw [← hc.2.2] at hfr
    rw [hfr.2.2.2.1]
    exact Or.inr rfl
  · rw [hc.2.2.1]; exact Or.inl rfl

/-- C18 on the state one tick after a reset. -/
theorem reachable_length_score_witness :
    ∃ s' rng', update (resetGame sStopped rngZero).1 rngZero = some (s', rng') ∧
      (s'.snake.length : Int) = s'.score + 3 ∧ 0 ≤ s'.score ∧ 3 ≤ s'.snake.length := by
  have hreset : ReachableBy isUnitDir (resetGame sStopped rngZero).1 := .reset sStopped rngZero
  obtain ⟨s', rng', hu, -⟩ := (reachable_length_score isUnitDir _ hreset).2.2.2.2 rngZero
  have h := reachable_length_score isUnitDir s' (.tick _ _ _ _ hreset hu)
  exact ⟨s', rng', hu, h.1, h.2.1, h.2.2.1⟩

/-- In every reachable state in which the game runs, the food is on the board
and on no snake segment. -/
theorem food_invariant (ok : Int → Int → Prop) (s : State) (h : ReachableBy ok s) :
    s.running = true → inGrid s.food ∧ s.food ∉ s.snake := by
  induction h with
  | reset s0 rng =>
    intro hrun
    unfold resetGame at hrun ⊢
    rcases spawnFood_cases _ rng with ⟨rng', hsp⟩ | ⟨c, rng', hsp, hin, hfree⟩
    · rw [hsp] at hrun
      exact absurd hrun (by simp [endGame])
    · rw [hsp]
      exact ⟨hin, hfree⟩
  | tick s s' rng rng' _ hu ih =>
    intro hrun
    obtain ⟨head, tail, hs, hc | hc | hc⟩ := update_cases s s' rng rng' hu
    · rw [hc.2.1] at hrun
      exact absurd hrun (by simp [endGame])
    · rcases spawnFood_cases (eaten s head) rng with ⟨r, hsp⟩ | ⟨c, r, hsp, hin, hfree⟩
      · rw [hsp] at hc
        have hs' : s' = endGame (eaten s head) := (Prod.mk.inj hc.2.2).1
        rw [hs'] at hrun
        exact absurd hrun (by simp [endGame])
      · rw [hsp] at hc
        have hs' : s' = { eaten s head with food := c } := (Prod.mk.inj hc.2.2).1
        rw [hs']
        exact ⟨hin, hfree⟩
    · obtain ⟨-, he, hs', -⟩ := hc
      rw [hs'] at hrun ⊢
      obtain ⟨hin, hfree⟩ := ih hrun
      refine ⟨hin, fun hmem => ?_⟩
      rcases List.mem_cons.1 hmem with h | h
      · have := (isEating_iff s head).2 h.symm
        rw [he] at this
        exact absurd this (by decide)
      · exact hfree (List.dropLast_subset _ h)
  | turn s x y _ _ ih =>
    intro hrun
    obtain ⟨hsn, -, hf, -, hr⟩ := setDirection_keeps s x y
    rw [hr] at hrun
    rw [hsn, hf]
    exact ih hrun

/-- C19. In every state reachable from `resetGame()` by `update()` ticks and
`setDirection` calls (any arguments, any samples) in which the game runs, the
food cell lies on the board and equals no snake segment; so a tick that eats
there finds its new head neither off the board nor on the body, and does not
end the game by a collision. -/
theorem reachable_food_free (ok : Int → Int → Prop) (s : State) (h : ReachableBy ok s)
    (hrun : s.running = true) :
    inGrid s.food ∧ (∀ part ∈ s.snake, part ≠ s.food) ∧
    ∀ head tail, s.snake = head :: tail → isEating s head = true →
      hitSelf s.snake (newHead s head) (isEating s head) = false ∧
      collision s head = false := by
  obtain ⟨hin, hfree⟩ := food_invariant ok s h hrun
  refine ⟨hin, fun part hpart heq => hfree (heq ▸ hpart), fun head tail _ he => ?_⟩
  have hnh : newHead s head = s.food := (isEating_iff s head).1 he
  have hself : hitSelf s.snake (newHead s head) (isEating s head) = false := by
    rw [he]
    unfold hitSelf
    simp only [if_true]
    rw [← Bool.not_eq_true, any_cell_iff, hnh]
    exact hfree
  have hwall : hitWall (newHead s head) = false := by
    rw [← Bool.not_eq_true, hitWall_iff, hnh]
    exact not_not.2 hin
  refine ⟨hself, ?_⟩
  unfold collision
  rw [hself, hwall]
  rfl

/-- C19 on the state right after a reset whose first candidate is (0, 0). -/
theorem reachable_food_free_witness :
    (resetGame sStopped rngZero).1.running = true ∧
    (resetGame sStopped rngZero).1.food = ⟨0, 0⟩ ∧
    inGrid (resetGame sStopped rngZero).1.food ∧
    ∀ part ∈ (resetGame sStopped rngZero).1.snake, part ≠ (resetGame sStopped rngZero).1.food := by
  have hr : resetGame sStopped rngZero =
      ({ sStopped with running := true, accumulator := 0, lastFrameTime := 0, food := ⟨0, 0⟩ },
        rngZero.drop 2) := by
    unfold resetGame spawnFood
    rw [spawnFoodLoop_free _ rngZero (by decide)]
    rfl
  have hrun : (resetGame sStopped rngZero).1.running = true := by rw [hr]
  have h := reachable_food_free isUnitDir _ (.reset sStopped rngZero) hrun
  exact ⟨hrun, by rw [hr], h.1, h.2.1⟩

end SnakeGame
